import Mathlib

/-!
Verification development for the Tamil Nadu government news dashboard
(`government_analysis.py`).

The development embeds the program shallowly:

* Python text is modelled by Lean `String` / `List Char`; Python's
  `needle in haystack` substring test is `containsSub`, and `str.lower()`
  is `List.map Char.toLower` (ASCII case folding, which covers every
  keyword the program matches on).
* `classify_governance_sentiment` is translated branch by branch from
  the source.
* `fetch_news` is translated as a fold over the (already downloaded and
  feed-parsed) entry lists, with the external RFC-822 timestamp parser
  passed in as a function `parse : String → Option Int` returning seconds
  since an epoch (`none` models `strptime` raising `ValueError`), and the
  wall clock `datetime.utcnow()` passed in as `now : Int`.  `timedelta.days`
  is floor division of the second difference by 86400, i.e. `Int.fdiv`.
* The module-level feedback-file load (`os.path.exists` / `pd.read_csv`
  with an encoding fallback) is translated with the filesystem and the
  two decoder runs passed in as parameters.
* The CSV persistence used for the correction table lives in the pandas
  library, not in this repository; it is modelled from the spec as an
  RFC-4180-style codec (minimal quoting, `\n` record terminator), and the
  save/reload round trip is proved against that model.
-/

/-! ## Substring matching (Python `in`) and case folding -/

/-- Python's `needle in haystack` on strings, over explicit character
lists: `true` iff `needle` occurs as a contiguous sublist of `haystack`. -/
def containsSub (needle : List Char) : List Char → Bool
  | [] => needle.isEmpty
  | c :: t => needle.isPrefixOf (c :: t) || containsSub needle t

/-- `isPrefixOf` agrees with existence of a suffix completion. -/
theorem isPrefixOf_eq (n : List Char) : ∀ h : List Char,
    (n.isPrefixOf h = true ↔ ∃ post, h = n ++ post) := by
  induction n with
  | nil =>
    intro h
    simp [List.isPrefixOf]
  | cons a as ih =>
    intro h
    cases h with
    | nil =>
      simp [List.isPrefixOf]
    | cons b bs =>
      simp only [List.isPrefixOf, Bool.and_eq_true, beq_iff_eq, ih bs]
      constructor
      · rintro ⟨rfl, post, rfl⟩
        exact ⟨post, rfl⟩
      · rintro ⟨post, hpost⟩
        obtain ⟨rfl, rfl⟩ : a = b ∧ bs = as ++ post := by
          simpa [List.cons_append, eq_comm] using hpost
        exact ⟨rfl, post, rfl⟩

/-- `containsSub` agrees with existence of a splitting into
`pre ++ needle ++ post`. -/
theorem containsSub_eq (n : List Char) : ∀ h : List Char,
    (containsSub n h = true ↔ ∃ pre post, h = pre ++ n ++ post) := by
  intro h
  induction h with
  | nil =>
    simp only [containsSub, List.isEmpty_iff]
    constructor
    · rintro rfl
      exact ⟨[], [], rfl⟩
    · rintro ⟨pre, post, hsplit⟩
      rcases List.append_eq_nil.mp (List.append_eq_nil.mp hsplit.symm).1 with ⟨-, hn⟩
      exact hn
  | cons c t ih =>
    simp only [containsSub, Bool.or_eq_true, isPrefixOf_eq, ih]
    constructor
    · rintro (⟨post, hpost⟩ | ⟨pre, post, rfl⟩)
      · exact ⟨[], post, by simpa using hpost⟩
      · exact ⟨c :: pre, post, rfl⟩
    · rintro ⟨pre, post, hsplit⟩
      cases pre with
      | nil =>
        exact Or.inl ⟨post, by simpa using hsplit⟩
      | cons p ps =>
        refine Or.inr ⟨ps, post, ?_⟩
        have := hsplit
        simp only [List.cons_append, List.cons.injEq] at this
        exact this.2

/-- Case-insensitive occurrence of `needle` in `hay`: some contiguous
segment of `hay` equals `needle` up to ASCII case folding.  This is the
spec's notion of "occurs as a case-insensitive substring". -/
def occursCI (needle hay : String) : Prop :=
  ∃ pre mid post : List Char, hay.data = pre ++ mid ++ post ∧
    mid.map Char.toLower = needle.data.map Char.toLower

/-- Splitting the image of a `map` splits the source list. -/
theorem map_eq_append_split {f : Char → Char} : ∀ {l s t : List Char},
    l.map f = s ++ t → ∃ s' t', l = s' ++ t' ∧ s'.map f = s ∧ t'.map f = t := by
  intro l
  induction l with
  | nil =>
    intro s t h
    rcases List.append_eq_nil.mp h.symm with ⟨rfl, rfl⟩
    exact ⟨[], [], rfl, rfl, rfl⟩
  | cons c cs ih =>
    intro s t h
    cases s with
    | nil =>
      exact ⟨[], c :: cs, rfl, rfl, by simpa using h⟩
    | cons a as =>
      simp only [List.map_cons, List.cons_append, List.cons.injEq] at h
      obtain ⟨s', t', rfl, hs, ht⟩ := ih h.2
      exact ⟨c :: s', t', rfl, by simp [h.1, hs], ht⟩

/-- The program's test `needle in text.lower()` (with an all-lowercase
needle) decides case-insensitive occurrence of the needle in the text. -/
theorem containsSub_lower_iff (n hay : String)
    (hn : n.data.map Char.toLower = n.data) :
    (containsSub n.data (hay.data.map Char.toLower) = true ↔ occursCI n hay) := by
  rw [containsSub_eq]
  constructor
  · rintro ⟨pre, post, hsplit⟩
    obtain ⟨pre', rest, heq, hpre, hrest⟩ :=
      map_eq_append_split (l := hay.data) (s := pre ++ n.data) (t := post)
        (by simpa [List.append_assoc] using hsplit)
    obtain ⟨pre'', mid, rfl, hpre'', hmid⟩ :=
      map_eq_append_split (l := pre') (s := pre) (t := n.data) hpre
    exact ⟨pre'', mid, rest, by simp [heq, List.append_assoc], by rw [hmid, hn]⟩
  · rintro ⟨pre, mid, post, hsplit, hmid⟩
    refine ⟨pre.map Char.toLower, post.map Char.toLower, ?_⟩
    rw [hsplit]
    simp [hmid, hn]

/-! ## The sentiment classifier (`classify_governance_sentiment`) -/

/-- First keyword list of the "Govt Analysis" branch (source line 28). -/
def misgovernanceKeywords : List String :=
  ["failure", "misgovernance", "corruption", "controversy"]

/-- Second keyword list of the "Govt Analysis" branch (source line 30). -/
def goodGovernanceKeywords : List String :=
  ["success", "achievement", "development", "growth"]

/-- `classify_governance_sentiment(text, category)` from the source,
line by line.  `text.lower()` is `text.data.map Char.toLower`; Python's
`word in ...` is `containsSub`; returning `None` is `none`. -/
def classify_governance_sentiment (text category : String) : Option String :=
  if category = "Govt Analysis" then
    if misgovernanceKeywords.any
        (fun word => containsSub word.data (text.data.map Char.toLower)) then
      some "Misgovernance (TN Govt Only)"
    else if goodGovernanceKeywords.any
        (fun word => containsSub word.data (text.data.map Char.toLower)) then
      some "Good Governance (TN Govt Only)"
    else none
  else if category = "Protests Against Government" then
    if containsSub "dmk".data (text.data.map Char.toLower)
        || containsSub "stalin".data (text.data.map Char.toLower)
        || containsSub "tamil nadu government".data (text.data.map Char.toLower) then
      some "Anti TN State Government"
    else if containsSub "modi".data (text.data.map Char.toLower)
        || containsSub "bjp government".data (text.data.map Char.toLower)
        || containsSub "central government".data (text.data.map Char.toLower) then
      some "Anti Central Government"
    else
      some "General Protest"
  else
    none

/-- Python's `any(word in text.lower() for word in ks)`, for all-lowercase
keyword lists, decides "some keyword of `ks` occurs case-insensitively". -/
theorem any_containsSub_iff (ks : List String) (text : String)
    (hks : ∀ k ∈ ks, k.data.map Char.toLower = k.data) :
    (ks.any (fun word => containsSub word.data (text.data.map Char.toLower)) = true
      ↔ ∃ k ∈ ks, occursCI k text) := by
  rw [List.any_eq_true]
  constructor
  · rintro ⟨k, hk, hc⟩
    exact ⟨k, hk, (containsSub_lower_iff k text (hks k hk)).mp hc⟩
  · rintro ⟨k, hk, ho⟩
    exact ⟨k, hk, (containsSub_lower_iff k text (hks k hk)).mpr ho⟩

/-- Unfolding `classify_governance_sentiment` at category "Govt Analysis". -/
theorem classify_govt_eq (text : String) :
    classify_governance_sentiment text "Govt Analysis" =
      if misgovernanceKeywords.any
          (fun word => containsSub word.data (text.data.map Char.toLower)) then
        some "Misgovernance (TN Govt Only)"
      else if goodGovernanceKeywords.any
          (fun word => containsSub word.data (text.data.map Char.toLower)) then
        some "Good Governance (TN Govt Only)"
      else none := rfl

/-- Unfolding `classify_governance_sentiment` at category
"Protests Against Government". -/
theorem classify_protests_eq (text : String) :
    classify_governance_sentiment text "Protests Against Government" =
      if containsSub "dmk".data (text.data.map Char.toLower)
          || containsSub "stalin".data (text.data.map Char.toLower)
          || containsSub "tamil nadu government".data (text.data.map Char.toLower) then
        some "Anti TN State Government"
      else if containsSub "modi".data (text.data.map Char.toLower)
          || containsSub "bjp government".data (text.data.map Char.toLower)
          || containsSub "central government".data (text.data.map Char.toLower) then
        some "Anti Central Government"
      else
        some "General Protest" := rfl

/-- The spec's first protest keyword set. -/
def antiStateKeywords : List String := ["dmk", "stalin", "tamil nadu government"]

/-- The spec's second protest keyword set. -/
def antiCentralKeywords : List String := ["modi", "bjp government", "central government"]

/-- The first protest branch condition decides occurrence of an
anti-state keyword. -/
theorem protest_state_iff (text : String) :
    ((containsSub "dmk".data (text.data.map Char.toLower)
      || containsSub "stalin".data (text.data.map Char.toLower)
      || containsSub "tamil nadu government".data (text.data.map Char.toLower)) = true
    ↔ ∃ k ∈ antiStateKeywords, occursCI k text) := by
  have h1 := containsSub_lower_iff "dmk" text (by decide)
  have h2 := containsSub_lower_iff "stalin" text (by decide)
  have h3 := containsSub_lower_iff "tamil nadu government" text (by decide)
  simp only [Bool.or_eq_true, h1, h2, h3, antiStateKeywords]
  constructor
  · rintro ((h | h) | h)
    exacts [⟨"dmk", by simp, h⟩, ⟨"stalin", by simp, h⟩,
      ⟨"tamil nadu government", by simp, h⟩]
  · rintro ⟨k, hk, h⟩
    simp only [List.mem_cons, List.not_mem_nil, or_false] at hk
    rcases hk with rfl | rfl | rfl
    exacts [Or.inl (Or.inl h), Or.inl (Or.inr h), Or.inr h]

/-- The second protest branch condition decides occurrence of an
anti-central keyword. -/
theorem protest_central_iff (text : String) :
    ((containsSub "modi".data (text.data.map Char.toLower)
      || containsSub "bjp government".data (text.data.map Char.toLower)
      || containsSub "central government".data (text.data.map Char.toLower)) = true
    ↔ ∃ k ∈ antiCentralKeywords, occursCI k text) := by
  have h1 := containsSub_lower_iff "modi" text (by decide)
  have h2 := containsSub_lower_iff "bjp government" text (by decide)
  have h3 := containsSub_lower_iff "central government" text (by decide)
  simp only [Bool.or_eq_true, h1, h2, h3, antiCentralKeywords]
  constructor
  · rintro ((h | h) | h)
    exacts [⟨"modi", by simp, h⟩, ⟨"bjp government", by simp, h⟩,
      ⟨"central government", by simp, h⟩]
  · rintro ⟨k, hk, h⟩
    simp only [List.mem_cons, List.not_mem_nil, or_false] at hk
    rcases hk with rfl | rfl | rfl
    exacts [Or.inl (Or.inl h), Or.inl (Or.inr h), Or.inr h]

/-- C1: for every title, `classify(title, "Govt Analysis")` returns
"Misgovernance (TN Govt Only)" when some keyword of {failure,
misgovernance, corruption, controversy} occurs case-insensitively in the
title (so Misgovernance wins even when a Good-Governance keyword also
occurs, first-branch priority, and a title containing "corruption" in any
letter case is classified Misgovernance); otherwise
"Good Governance (TN Govt Only)" when some keyword of {success,
achievement, development, growth} occurs; otherwise no label. -/
theorem claim_C1_classify_govt_analysis (title : String) :
    ((∃ k ∈ misgovernanceKeywords, occursCI k title) →
      classify_governance_sentiment title "Govt Analysis" =
        some "Misgovernance (TN Govt Only)")
  ∧ ((¬ ∃ k ∈ misgovernanceKeywords, occursCI k title) →
      (∃ k ∈ goodGovernanceKeywords, occursCI k title) →
      classify_governance_sentiment title "Govt Analysis" =
        some "Good Governance (TN Govt Only)")
  ∧ ((¬ ∃ k ∈ misgovernanceKeywords, occursCI k title) →
      (¬ ∃ k ∈ goodGovernanceKeywords, occursCI k title) →
      classify_governance_sentiment title "Govt Analysis" = none)
  ∧ (occursCI "corruption" title →
      classify_governance_sentiment title "Govt Analysis" =
        some "Misgovernance (TN Govt Only)") := by
  have hm := any_containsSub_iff misgovernanceKeywords title (by decide)
  have hg := any_containsSub_iff goodGovernanceKeywords title (by decide)
  rw [classify_govt_eq]
  refine ⟨fun hex => ?_, fun hno hex => ?_, fun hno1 hno2 => ?_, fun hocc => ?_⟩
  · rw [if_pos (hm.mpr hex)]
  · rw [if_neg (fun h => hno (hm.mp h)), if_pos (hg.mpr hex)]
  · rw [if_neg (fun h => hno1 (hm.mp h)), if_neg (fun h => hno2 (hg.mp h))]
  · exact if_pos (hm.mpr ⟨"corruption", by simp [misgovernanceKeywords], hocc⟩)

/-- Concrete instances of C1: an upper-case "CORRUPTION" title (which also
contains the Good-Governance keyword "growth") is classified Misgovernance,
a "growth" title Good Governance, and an unmatched title gets no label. -/
theorem claim_C1_witness :
    classify_governance_sentiment "TN CORRUPTION amid growth" "Govt Analysis" =
      some "Misgovernance (TN Govt Only)"
  ∧ classify_governance_sentiment "TN records Growth" "Govt Analysis" =
      some "Good Governance (TN Govt Only)"
  ∧ classify_governance_sentiment "plain headline" "Govt Analysis" = none := by
  have hocc : occursCI "corruption" "TN CORRUPTION amid growth" :=
    ⟨"TN ".data, "CORRUPTION".data, " amid growth".data, by decide, by decide⟩
  have hg : ∃ k ∈ goodGovernanceKeywords, occursCI k "TN records Growth" :=
    ⟨"growth", by simp [goodGovernanceKeywords],
      "TN records ".data, "Growth".data, [], by decide, by decide⟩
  have hno1 : ¬ ∃ k ∈ misgovernanceKeywords, occursCI k "TN records Growth" :=
    fun hex => absurd ((any_containsSub_iff _ _ (by decide)).mpr hex) (by decide)
  have hno2 : ¬ ∃ k ∈ misgovernanceKeywords, occursCI k "plain headline" :=
    fun hex => absurd ((any_containsSub_iff _ _ (by decide)).mpr hex) (by decide)
  have hno3 : ¬ ∃ k ∈ goodGovernanceKeywords, occursCI k "plain headline" :=
    fun hex => absurd ((any_containsSub_iff _ _ (by decide)).mpr hex) (by decide)
  exact ⟨(claim_C1_classify_govt_analysis _).2.2.2 hocc,
    (claim_C1_classify_govt_analysis _).2.1 hno1 hg,
    (claim_C1_classify_govt_analysis _).2.2.1 hno2 hno3⟩

/-- C2: for every title, `classify(title, "Protests Against Government")`
returns "Anti TN State Government" when some keyword of {dmk, stalin,
"tamil nadu government"} occurs case-insensitively (the branch checked
first, so a title with both "stalin" and "modi" gets the anti-state
label); otherwise "Anti Central Government" when some keyword of {modi,
"bjp government", "central government"} occurs; otherwise
"General Protest"; and the result for this topic is never `none`. -/
theorem claim_C2_classify_protests (title : String) :
    ((∃ k ∈ antiStateKeywords, occursCI k title) →
      classify_governance_sentiment title "Protests Against Government" =
        some "Anti TN State Government")
  ∧ ((¬ ∃ k ∈ antiStateKeywords, occursCI k title) →
      (∃ k ∈ antiCentralKeywords, occursCI k title) →
      classify_governance_sentiment title "Protests Against Government" =
        some "Anti Central Government")
  ∧ ((¬ ∃ k ∈ antiStateKeywords, occursCI k title) →
      (¬ ∃ k ∈ antiCentralKeywords, occursCI k title) →
      classify_governance_sentiment title "Protests Against Government" =
        some "General Protest")
  ∧ classify_governance_sentiment title "Protests Against Government" ≠ none := by
  have hs := protest_state_iff title
  have hc := protest_central_iff title
  rw [classify_protests_eq]
  refine ⟨fun hex => ?_, fun hno hex => ?_, fun hno1 hno2 => ?_, ?_⟩
  · rw [if_pos (hs.mpr hex)]
  · rw [if_neg (fun h => hno (hs.mp h)), if_pos (hc.mpr hex)]
  · rw [if_neg (fun h => hno1 (hs.mp h)), if_neg (fun h => hno2 (hc.mp h))]
  · split
    · exact Option.some_ne_none _
    · split
      · exact Option.some_ne_none _
      · exact Option.some_ne_none _

/-- Concrete instances of C2: a title with both "Stalin" and "Modi" gets
the anti-state label (priority), a "Modi" title the anti-central label,
and an unmatched protest title the default "General Protest". -/
theorem claim_C2_witness :
    classify_governance_sentiment "Stalin slams Modi at rally"
      "Protests Against Government" = some "Anti TN State Government"
  ∧ classify_governance_sentiment "March against Modi"
      "Protests Against Government" = some "Anti Central Government"
  ∧ classify_governance_sentiment "Farmers strike in Salem"
      "Protests Against Government" = some "General Protest"
  ∧ classify_governance_sentiment "Farmers strike in Salem"
      "Protests Against Government" ≠ none := by
  have hst : ∃ k ∈ antiStateKeywords, occursCI k "Stalin slams Modi at rally" :=
    ⟨"stalin", by simp [antiStateKeywords],
      [], "Stalin".data, " slams Modi at rally".data, by decide, by decide⟩
  have hmo : ∃ k ∈ antiCentralKeywords, occursCI k "March against Modi" :=
    ⟨"modi", by simp [antiCentralKeywords],
      "March against ".data, "Modi".data, [], by decide, by decide⟩
  have hno1 : ¬ ∃ k ∈ antiStateKeywords, occursCI k "March against Modi" :=
    fun hex => absurd ((protest_state_iff _).mpr hex) (by decide)
  have hno2 : ¬ ∃ k ∈ antiStateKeywords, occursCI k "Farmers strike in Salem" :=
    fun hex => absurd ((protest_state_iff _).mpr hex) (by decide)
  have hno3 : ¬ ∃ k ∈ antiCentralKeywords, occursCI k "Farmers strike in Salem" :=
    fun hex => absurd ((protest_central_iff _).mpr hex) (by decide)
  exact ⟨(claim_C2_classify_protests _).1 hst,
    (claim_C2_classify_protests _).2.1 hno1 hmo,
    (claim_C2_classify_protests _).2.2.1 hno2 hno3,
    (claim_C2_classify_protests _).2.2.2⟩

/-- C10: for every title and every category other than "Govt Analysis" and
"Protests Against Government", the classifier returns `none`; the same
no-label fallback is the result for "Govt Analysis" titles matching
neither keyword set. -/
theorem claim_C10_classify_none (title category : String) :
    (category ≠ "Govt Analysis" → category ≠ "Protests Against Government" →
      classify_governance_sentiment title category = none)
  ∧ ((¬ ∃ k ∈ misgovernanceKeywords, occursCI k title) →
      (¬ ∃ k ∈ goodGovernanceKeywords, occursCI k title) →
      classify_governance_sentiment title "Govt Analysis" = none) := by
  constructor
  · intro h1 h2
    rw [classify_governance_sentiment, if_neg h1, if_neg h2]
  · intro hno1 hno2
    have hm := any_containsSub_iff misgovernanceKeywords title (by decide)
    have hg := any_containsSub_iff goodGovernanceKeywords title (by decide)
    rw [classify_govt_eq, if_neg (fun h => hno1 (hm.mp h)),
      if_neg (fun h => hno2 (hg.mp h))]

/-- Concrete instances of C10: an unknown category yields no label, and an
unmatched "Govt Analysis" title yields no label. -/
theorem claim_C10_witness :
    classify_governance_sentiment "TN corruption row" "Sports" = none
  ∧ classify_governance_sentiment "plain words" "Govt Analysis" = none := by
  have hno1 : ¬ ∃ k ∈ misgovernanceKeywords, occursCI k "plain words" :=
    fun hex => absurd ((any_containsSub_iff _ _ (by decide)).mpr hex) (by decide)
  have hno2 : ¬ ∃ k ∈ goodGovernanceKeywords, occursCI k "plain words" :=
    fun hex => absurd ((any_containsSub_iff _ _ (by decide)).mpr hex) (by decide)
  exact ⟨(claim_C10_classify_none "TN corruption row" "Sports").1
      (by decide) (by decide),
    (claim_C10_classify_none "plain words" "Sports").2 hno1 hno2⟩

/-! ## The feed fetcher (`fetch_news`)

The network and the two external library calls are passed in as data:
`feeds` is the list of already-downloaded feeds (one entry list per query
URL of the selected category, in the configured order), `parse` is
`datetime.strptime(_, "%a, %d %b %Y %H:%M:%S %Z")` returning seconds
since an epoch (`none` models the `ValueError` it raises on a malformed
string), and `now` is `datetime.utcnow()` in the same seconds scale. -/

/-- One feed entry as produced by `feedparser`: the fields the program
reads. -/
structure FeedEntry where
  title : String
  published : String
  link : String
deriving DecidableEq

/-- One row of the result table built at source lines 60-66. -/
structure NewsRow where
  category : String
  title : String
  publishedDate : Int
  url : String
  sentiment : String
deriving DecidableEq

/-- The result table: `pd.DataFrame(news_data, columns=[...])` at source
line 69. -/
structure NewsTable where
  cols : List String
  rows : List NewsRow
deriving DecidableEq

/-- The column list passed to `pd.DataFrame` at source line 69. -/
def newsColumns : List String :=
  ["Category", "Title", "Published Date", "URL", "Sentiment"]

/-- `(datetime.utcnow() - published_date).days` at source line 53:
`timedelta.days` floors, so it is floor division of the second
difference by 86400. -/
def days_ago (now published : Int) : Int := (now - published).fdiv 86400

/-- The body of the entry loop of `fetch_news` (source lines 52-67), for
one entry: parse the published date (a failure aborts the whole call),
apply the recency filter, the title dedup against the `all_news` set, and
the classifier; on success extend the state.  The state is
`(all_news, news_data)`. -/
def fetchStep (category : String) (daysFilter now : Int)
    (parse : String → Option Int) (st : List String × List NewsRow)
    (entry : FeedEntry) : Except Unit (List String × List NewsRow) :=
  match parse entry.published with
  | none => .error ()
  | some published =>
    if days_ago now published ≤ daysFilter then
      if st.1.contains entry.title then .ok st
      else
        match classify_governance_sentiment entry.title category with
        | some sentiment =>
          .ok (entry.title :: st.1,
            st.2 ++ [⟨category, entry.title, published.fdiv 86400,
              entry.link, sentiment⟩])
        | none => .ok st
    else .ok st

/-- `fetch_news(selected_category, days_filter)` (source lines 45-69):
iterate over the feeds of the category's query URLs in order, process
every entry, and wrap the surviving rows into a table with the fixed
column list.  `published_date.date()` is modelled as the day number
`published.fdiv 86400`. -/
def fetch_news (category : String) (daysFilter now : Int)
    (parse : String → Option Int) (feeds : List (List FeedEntry)) :
    Except Unit NewsTable :=
  (feeds.flatten.foldlM (fetchStep category daysFilter now parse) ([], [])).map
    (fun st => ⟨newsColumns, st.2⟩)

/-- `fetchStep` never fails when the published date parses. -/
theorem fetchStep_ok (category : String) (daysFilter now : Int)
    (parse : String → Option Int) (st : List String × List NewsRow)
    (entry : FeedEntry) (published : Int)
    (hp : parse entry.published = some published) :
    ∃ st', fetchStep category daysFilter now parse st entry = .ok st' := by
  rw [fetchStep, hp]
  dsimp only
  split
  · split
    · exact ⟨st, rfl⟩
    · split
      · exact ⟨_, rfl⟩
      · exact ⟨st, rfl⟩
  · exact ⟨st, rfl⟩

/-- `bind` on `Except` propagates an error. -/
theorem except_error_bind {α β : Type} (f : α → Except Unit β) :
    ((Except.error () : Except Unit α) >>= f) = Except.error () := rfl

/-- `bind` on `Except` applies the continuation to a success. -/
theorem except_ok_bind {α β : Type} (a : α) (f : α → Except Unit β) :
    ((Except.ok a : Except Unit α) >>= f) = f a := rfl

/-- If some entry of the stream has an unparseable published date, the
whole entry fold fails. -/
theorem foldl_fetch_error (category : String) (daysFilter now : Int)
    (parse : String → Option Int) : ∀ (es : List FeedEntry)
    (st : List String × List NewsRow),
    (∃ e ∈ es, parse e.published = none) →
    List.foldlM (fetchStep category daysFilter now parse) st es =
      Except.error () := by
  intro es
  induction es with
  | nil =>
    rintro st ⟨e, he, -⟩
    exact absurd he (List.not_mem_nil e)
  | cons e es ih =>
    rintro st ⟨bad, hbad, hbadparse⟩
    rw [List.foldlM_cons]
    cases hp : parse e.published with
    | none =>
      rw [fetchStep, hp]
      exact except_error_bind _
    | some published =>
      obtain ⟨st', hst'⟩ :=
        fetchStep_ok category daysFilter now parse st e published hp
      rw [hst', except_ok_bind]
      have hbad' : bad ∈ es := by
        rcases List.mem_cons.mp hbad with rfl | h
        · rw [hp] at hbadparse
          exact absurd hbadparse (by simp)
        · exact h
      exact ih st' ⟨bad, hbad', hbadparse⟩

/-- C5: if any feed entry processed by a fetch call has a published-date
string the RFC-822 parser rejects, the whole call aborts with an error:
no per-entry isolation and no partial result table. -/
theorem claim_C5_malformed_date_fatal (category : String) (daysFilter now : Int)
    (parse : String → Option Int) (feeds : List (List FeedEntry))
    (hbad : ∃ e ∈ feeds.flatten, parse e.published = none) :
    fetch_news category daysFilter now parse feeds = Except.error () := by
  rw [fetch_news, foldl_fetch_error category daysFilter now parse _ _ hbad]
  rfl

/-- Concrete instance of C5: a single entry with a malformed date makes
the whole fetch call error out. -/
theorem claim_C5_witness :
    fetch_news "Govt Analysis" 30 0 (fun _ => none)
      [[⟨"TN corruption row", "not a date", "u"⟩]] = Except.error () :=
  claim_C5_malformed_date_fatal "Govt Analysis" 30 0 (fun _ => none)
    [[⟨"TN corruption row", "not a date", "u"⟩]]
    ⟨⟨"TN corruption row", "not a date", "u"⟩, by simp, rfl⟩

/-- C3: an entry is kept by the recency filter exactly when its age in
whole days relative to current UTC time is at most `max_age_days`
(`≤` comparison): on a one-entry feed the row survives (up to
classification) iff `days_ago now published ≤ daysFilter`; an entry
published exactly `daysFilter` days ago passes the filter, one published
`daysFilter + 1` days ago does not. -/
theorem claim_C3_recency_filter (category : String) (daysFilter now : Int)
    (parse : String → Option Int) (entry : FeedEntry) (published : Int)
    (hp : parse entry.published = some published) :
    (days_ago now published ≤ daysFilter →
      fetch_news category daysFilter now parse [[entry]] = .ok ⟨newsColumns,
        match classify_governance_sentiment entry.title category with
        | some sentiment =>
          [⟨category, entry.title, published.fdiv 86400, entry.link, sentiment⟩]
        | none => []⟩)
  ∧ (¬ days_ago now published ≤ daysFilter →
      fetch_news category daysFilter now parse [[entry]] =
        .ok ⟨newsColumns, []⟩)
  ∧ (published = now - daysFilter * 86400 → days_ago now published ≤ daysFilter)
  ∧ (published = now - (daysFilter + 1) * 86400 →
      ¬ days_ago now published ≤ daysFilter) := by
  refine ⟨fun hle => ?_, fun hgt => ?_, fun hb => ?_, fun hb => ?_⟩
  · rw [fetch_news]
    simp only [List.flatten_cons, List.flatten_nil, List.append_nil]
    rw [List.foldlM_cons, fetchStep, hp]
    dsimp only
    rw [if_pos hle, if_neg (by simp)]
    cases hcl : classify_governance_sentiment entry.title category with
    | some sentiment =>
      rw [except_ok_bind, List.foldlM_nil]
      rfl
    | none =>
      rw [except_ok_bind, List.foldlM_nil]
      rfl
  · rw [fetch_news]
    simp only [List.flatten_cons, List.flatten_nil, List.append_nil]
    rw [List.foldlM_cons, fetchStep, hp]
    dsimp only
    rw [if_neg hgt, except_ok_bind, List.foldlM_nil]
    rfl
  · have h : now - published = daysFilter * 86400 := by rw [hb]; ring
    rw [days_ago, h, Int.mul_fdiv_cancel _ (by norm_num)]
  · have h : now - published = (daysFilter + 1) * 86400 := by rw [hb]; ring
    rw [days_ago, h, Int.mul_fdiv_cancel _ (by norm_num)]
    omega

/-- Concrete instance of C3: with `now` 5 days after the epoch, an entry
published at the epoch is retained when the window is 5 days
(boundary, age = `max_age_days`), and excluded when `now` is 6 days
after the epoch (age = `max_age_days + 1`). -/
theorem claim_C3_witness :
    fetch_news "Govt Analysis" 5 432000 (fun _ => some 0)
      [[⟨"TN corruption row", "d", "u"⟩]] =
      .ok ⟨newsColumns, [⟨"Govt Analysis", "TN corruption row", 0, "u",
        "Misgovernance (TN Govt Only)"⟩]⟩
  ∧ fetch_news "Govt Analysis" 5 518400 (fun _ => some 0)
      [[⟨"TN corruption row", "d", "u"⟩]] = .ok ⟨newsColumns, []⟩ := by
  constructor
  · have hcl : classify_governance_sentiment "TN corruption row" "Govt Analysis" =
        some "Misgovernance (TN Govt Only)" := by decide
    have h := (claim_C3_recency_filter "Govt Analysis" 5 432000 (fun _ => some 0)
      ⟨"TN corruption row", "d", "u"⟩ 0 rfl).1 (by decide)
    rw [hcl] at h
    exact h
  · exact (claim_C3_recency_filter "Govt Analysis" 5 518400 (fun _ => some 0)
      ⟨"TN corruption row", "d", "u"⟩ 0 rfl).2.1 (by decide)

/-- Invariant of the entry fold: output rows have pairwise distinct
titles and every output title is recorded in the `all_news` set. -/
theorem foldl_fetch_nodup (category : String) (daysFilter now : Int)
    (parse : String → Option Int) : ∀ (es : List FeedEntry)
    (st st' : List String × List NewsRow),
    (st.2.map NewsRow.title).Nodup → (∀ r ∈ st.2, r.title ∈ st.1) →
    List.foldlM (fetchStep category daysFilter now parse) st es = .ok st' →
    (st'.2.map NewsRow.title).Nodup ∧ ∀ r ∈ st'.2, r.title ∈ st'.1 := by
  intro es
  induction es with
  | nil =>
    intro st st' h1 h2 hfold
    rw [List.foldlM_nil] at hfold
    obtain rfl : st = st' := by simpa [pure, Except.pure] using hfold
    exact ⟨h1, h2⟩
  | cons e es ih =>
    intro st st' h1 h2 hfold
    rw [List.foldlM_cons] at hfold
    cases hp : parse e.published with
    | none =>
      rw [fetchStep, hp, except_error_bind] at hfold
      exact absurd hfold (by simp)
    | some published =>
      rw [fetchStep, hp] at hfold
      dsimp only at hfold
      by_cases hrec : days_ago now published ≤ daysFilter
      · rw [if_pos hrec] at hfold
        by_cases hseen : st.1.contains e.title = true
        · rw [if_pos hseen, except_ok_bind] at hfold
          exact ih st st' h1 h2 hfold
        · rw [if_neg hseen] at hfold
          cases hcl : classify_governance_sentiment e.title category with
          | some sentiment =>
            rw [hcl, except_ok_bind] at hfold
            have hnotin : e.title ∉ st.1 := by simpa using hseen
            refine ih _ st' ?_ ?_ hfold
            · dsimp only
              rw [List.map_append]
              rw [List.nodup_append]
              refine ⟨h1, List.nodup_singleton _, ?_⟩
              intro x hx hx'
              simp only [List.map_cons, List.map_nil, List.mem_singleton] at hx'
              subst hx'
              obtain ⟨r, hr, hrt⟩ := List.mem_map.mp hx
              exact hnotin (hrt ▸ h2 r hr)
            · intro r hr
              dsimp only at hr ⊢
              rcases List.mem_append.mp hr with h | h
              · exact List.mem_cons_of_mem _ (h2 r h)
              · simp only [List.mem_singleton] at h
                subst h
                exact List.mem_cons_self _ _
          | none =>
            rw [hcl, except_ok_bind] at hfold
            exact ih st st' h1 h2 hfold
      · rw [if_neg hrec, except_ok_bind] at hfold
        exact ih st st' h1 h2 hfold

/-- Extracting the underlying fold result from a successful fetch. -/
theorem fetch_ok_elim {category : String} {daysFilter now : Int}
    {parse : String → Option Int} {feeds : List (List FeedEntry)}
    {tbl : NewsTable}
    (h : fetch_news category daysFilter now parse feeds = .ok tbl) :
    ∃ st, List.foldlM (fetchStep category daysFilter now parse) ([], [])
        feeds.flatten = .ok st ∧ tbl = ⟨newsColumns, st.2⟩ := by
  rw [fetch_news] at h
  cases hf : List.foldlM (fetchStep category daysFilter now parse) ([], [])
      feeds.flatten with
  | error u =>
    rw [hf] at h
    exact absurd h (by simp [Except.map])
  | ok st =>
    rw [hf] at h
    refine ⟨st, rfl, ?_⟩
    simpa [Except.map] using h.symm

/-- C4: within one fetch call the rows of the returned table are pairwise
distinct by exact title; when two entries with identical titles occur in
the processed stream of a single call, only the first occurrence is
retained (first occurrence wins, keeping the first entry's date and URL).
Across calls there is no shared state: each call of the pure function
`fetch_news` starts from the empty `all_news` set. -/
theorem claim_C4_dedup_by_title (category : String) (daysFilter now : Int)
    (parse : String → Option Int) :
    (∀ (feeds : List (List FeedEntry)) (tbl : NewsTable),
      fetch_news category daysFilter now parse feeds = .ok tbl →
      (tbl.rows.map NewsRow.title).Nodup)
  ∧ (∀ (e1 e2 : FeedEntry) (p1 p2 : Int) (sentiment : String),
      e1.title = e2.title →
      parse e1.published = some p1 → parse e2.published = some p2 →
      days_ago now p1 ≤ daysFilter → days_ago now p2 ≤ daysFilter →
      classify_governance_sentiment e1.title category = some sentiment →
      fetch_news category daysFilter now parse [[e1, e2]] =
        .ok ⟨newsColumns,
          [⟨category, e1.title, p1.fdiv 86400, e1.link, sentiment⟩]⟩) := by
  constructor
  · intro feeds tbl h
    obtain ⟨st, hst, rfl⟩ := fetch_ok_elim h
    exact (foldl_fetch_nodup category daysFilter now parse feeds.flatten
      ([], []) st (by simp) (by simp) hst).1
  · intro e1 e2 p1 p2 sentiment heq hp1 hp2 hr1 hr2 hcl
    rw [fetch_news]
    simp only [List.flatten_cons, List.flatten_nil, List.append_nil]
    rw [List.foldlM_cons, fetchStep, hp1]
    dsimp only
    rw [if_pos hr1, if_neg (by simp), hcl, except_ok_bind,
      List.foldlM_cons, fetchStep, hp2]
    dsimp only
    rw [if_pos hr2, if_pos (by simp [heq]), except_ok_bind, List.foldlM_nil]
    rfl

/-- Concrete instance of C4: two entries with the same title in one call
produce a single row built from the first entry. -/
theorem claim_C4_witness :
    fetch_news "Govt Analysis" 30 0 (fun _ => some 0)
      [[⟨"TN corruption row", "d", "u1"⟩, ⟨"TN corruption row", "d", "u2"⟩]] =
      .ok ⟨newsColumns, [⟨"Govt Analysis", "TN corruption row", 0, "u1",
        "Misgovernance (TN Govt Only)"⟩]⟩ := by
  have h := (claim_C4_dedup_by_title "Govt Analysis" 30 0 (fun _ => some 0)).2
    ⟨"TN corruption row", "d", "u1"⟩ ⟨"TN corruption row", "d", "u2"⟩ 0 0
    "Misgovernance (TN Govt Only)" rfl rfl rfl (by decide) (by decide) (by decide)
  exact h

/-- The label set the presentation layer keeps for the "Govt Analysis"
tab (source line 103). -/
def govtLabels : List String :=
  ["Good Governance (TN Govt Only)", "Misgovernance (TN Govt Only)"]

/-- The label set the presentation layer keeps for the protests tab
(source line 127). -/
def protestLabels : List String :=
  ["Anti TN State Government", "Anti Central Government", "General Protest"]

/-- The `df_selected[df_selected["Sentiment"].isin(labels)]` filter of the
presentation layer, on the rows of a fetched table. -/
def sentimentIsin (labels : List String) (rows : List NewsRow) : List NewsRow :=
  rows.filter (fun r => labels.contains r.sentiment)

/-- Every label the classifier emits for "Govt Analysis" is in the
tab's expected label set. -/
theorem classify_govt_label (text sentiment : String)
    (h : classify_governance_sentiment text "Govt Analysis" = some sentiment) :
    govtLabels.contains sentiment = true := by
  rw [classify_govt_eq] at h
  split at h
  · cases h
    decide
  · split at h
    · cases h
      decide
    · cases h

/-- Every label the classifier emits for "Protests Against Government"
is in the tab's expected label set. -/
theorem classify_protest_label (text sentiment : String)
    (h : classify_governance_sentiment text "Protests Against Government" =
      some sentiment) :
    protestLabels.contains sentiment = true := by
  rw [classify_protests_eq] at h
  split at h
  · cases h
    decide
  · split at h
    · cases h
      decide
    · cases h
      decide

/-- Invariant of the entry fold: every accumulated row's sentiment is in
`labels`, provided the classifier only emits labels from `labels` for the
selected category. -/
theorem foldl_fetch_sentiment (category : String) (daysFilter now : Int)
    (parse : String → Option Int) (labels : List String)
    (hcl : ∀ text sentiment,
      classify_governance_sentiment text category = some sentiment →
      labels.contains sentiment = true) :
    ∀ (es : List FeedEntry) (st st' : List String × List NewsRow),
    (∀ r ∈ st.2, labels.contains r.sentiment = true) →
    List.foldlM (fetchStep category daysFilter now parse) st es = .ok st' →
    ∀ r ∈ st'.2, labels.contains r.sentiment = true := by
  intro es
  induction es with
  | nil =>
    intro st st' h1 hfold
    rw [List.foldlM_nil] at hfold
    obtain rfl : st = st' := by simpa [pure, Except.pure] using hfold
    exact h1
  | cons e es ih =>
    intro st st' h1 hfold
    rw [List.foldlM_cons] at hfold
    cases hp : parse e.published with
    | none =>
      rw [fetchStep, hp, except_error_bind] at hfold
      exact absurd hfold (by simp)
    | some published =>
      rw [fetchStep, hp] at hfold
      dsimp only at hfold
      by_cases hrec : days_ago now published ≤ daysFilter
      · rw [if_pos hrec] at hfold
        by_cases hseen : st.1.contains e.title = true
        · rw [if_pos hseen, except_ok_bind] at hfold
          exact ih st st' h1 hfold
        · rw [if_neg hseen] at hfold
          cases hclv : classify_governance_sentiment e.title category with
          | some sentiment =>
            rw [hclv, except_ok_bind] at hfold
            refine ih _ st' ?_ hfold
            intro r hr
            dsimp only at hr
            rcases List.mem_append.mp hr with h | h
            · exact h1 r h
            · simp only [List.mem_singleton] at h
              subst h
              exact hcl e.title sentiment hclv
          | none =>
            rw [hclv, except_ok_bind] at hfold
            exact ih st st' h1 hfold
      · rw [if_neg hrec, except_ok_bind] at hfold
        exact ih st st' h1 hfold

/-- C9: every row of a fetched table carries a sentiment from the fixed
label set of its topic, so the presentation layer's subsequent
`isin`-filter on the expected label set leaves the fetched table
unchanged. -/
theorem claim_C9_isin_filter_noop (daysFilter now : Int)
    (parse : String → Option Int) (feeds : List (List FeedEntry))
    (tbl : NewsTable) :
    (fetch_news "Govt Analysis" daysFilter now parse feeds = .ok tbl →
      sentimentIsin govtLabels tbl.rows = tbl.rows)
  ∧ (fetch_news "Protests Against Government" daysFilter now parse feeds =
        .ok tbl →
      sentimentIsin protestLabels tbl.rows = tbl.rows) := by
  constructor
  · intro h
    obtain ⟨st, hst, rfl⟩ := fetch_ok_elim h
    rw [sentimentIsin, List.filter_eq_self]
    exact foldl_fetch_sentiment "Govt Analysis" daysFilter now parse govtLabels
      classify_govt_label feeds.flatten ([], []) st (by simp) hst
  · intro h
    obtain ⟨st, hst, rfl⟩ := fetch_ok_elim h
    rw [sentimentIsin, List.filter_eq_self]
    exact foldl_fetch_sentiment "Protests Against Government" daysFilter now
      parse protestLabels classify_protest_label feeds.flatten ([], []) st
      (by simp) hst

/-- Concrete instance of C9: on a fetched one-row table the presentation
filter keeps the row, returning the rows unchanged. -/
theorem claim_C9_witness :
    sentimentIsin govtLabels
      [⟨"Govt Analysis", "TN corruption row", 0, "u",
        "Misgovernance (TN Govt Only)"⟩] =
      [⟨"Govt Analysis", "TN corruption row", 0, "u",
        "Misgovernance (TN Govt Only)"⟩] := by
  have h := (claim_C9_isin_filter_noop 5 432000 (fun _ => some 0)
    [[⟨"TN corruption row", "d", "u"⟩]]
    ⟨newsColumns, [⟨"Govt Analysis", "TN corruption row", 0, "u",
      "Misgovernance (TN Govt Only)"⟩]⟩).1 (by rfl)
  exact h

/-- The spec's description of the fetch output (§4.1), written as a
direct recursion over the processed entry stream: walk the entries in
feed order, drop entries outside the recency window, drop titles already
seen, drop entries the classifier gives no label, and emit one row per
surviving entry in processing order.  (Entries with unparseable dates
are skipped here; against `fetch_news` this definition is only invoked
when every date parses, since otherwise the call errors out.) -/
def specSurvivorRows (category : String) (daysFilter now : Int)
    (parse : String → Option Int) :
    List String → List FeedEntry → List NewsRow
  | _, [] => []
  | seen, e :: es =>
    match parse e.published with
    | none => specSurvivorRows category daysFilter now parse seen es
    | some published =>
      if days_ago now published ≤ daysFilter then
        if seen.contains e.title then
          specSurvivorRows category daysFilter now parse seen es
        else
          match classify_governance_sentiment e.title category with
          | some sentiment =>
            ⟨category, e.title, published.fdiv 86400, e.link, sentiment⟩ ::
              specSurvivorRows category daysFilter now parse (e.title :: seen) es
          | none => specSurvivorRows category daysFilter now parse seen es
      else specSurvivorRows category daysFilter now parse seen es

/-- The entry fold refines `specSurvivorRows`: a successful fold appends
exactly the spec's surviving rows to the accumulator. -/
theorem foldl_fetch_spec (category : String) (daysFilter now : Int)
    (parse : String → Option Int) : ∀ (es : List FeedEntry)
    (seen : List String) (acc : List NewsRow),
    (∀ e ∈ es, (parse e.published).isSome) →
    ∃ seen', List.foldlM (fetchStep category daysFilter now parse)
        (seen, acc) es =
      .ok (seen',
        acc ++ specSurvivorRows category daysFilter now parse seen es) := by
  intro es
  induction es with
  | nil =>
    intro seen acc _
    exact ⟨seen, by simp [List.foldlM_nil, specSurvivorRows, pure, Except.pure]⟩
  | cons e es ih =>
    intro seen acc hall
    obtain ⟨published, hp⟩ :=
      Option.isSome_iff_exists.mp (hall e (List.mem_cons_self e es))
    have hall' : ∀ e' ∈ es, (parse e'.published).isSome :=
      fun e' he' => hall e' (List.mem_cons_of_mem e he')
    rw [List.foldlM_cons, fetchStep, hp]
    dsimp only
    rw [specSurvivorRows, hp]
    dsimp only
    by_cases hrec : days_ago now published ≤ daysFilter
    · rw [if_pos hrec, if_pos hrec]
      by_cases hseen : seen.contains e.title = true
      · rw [if_pos hseen, if_pos hseen, except_ok_bind]
        exact ih seen acc hall'
      · rw [if_neg hseen, if_neg hseen]
        cases hcl : classify_governance_sentiment e.title category with
        | some sentiment =>
          rw [except_ok_bind]
          obtain ⟨seen', hseen'⟩ := ih (e.title :: seen)
            (acc ++ [⟨category, e.title, published.fdiv 86400,
              e.link, sentiment⟩]) hall'
          exact ⟨seen', by rw [hseen']; simp⟩
        | none =>
          rw [except_ok_bind]
          exact ih seen acc hall'
    · rw [if_neg hrec, if_neg hrec, except_ok_bind]
      exact ih seen acc hall'

/-- A successful fetch implies every processed entry's date parses. -/
theorem fetch_ok_parses {category : String} {daysFilter now : Int}
    {parse : String → Option Int} {feeds : List (List FeedEntry)}
    {tbl : NewsTable}
    (h : fetch_news category daysFilter now parse feeds = .ok tbl) :
    ∀ e ∈ feeds.flatten, (parse e.published).isSome := by
  intro e he
  cases hp : parse e.published with
  | some published => rfl
  | none =>
    rw [claim_C5_malformed_date_fatal category daysFilter now parse feeds
      ⟨e, he, hp⟩] at h
    exact absurd h (by simp)

/-- C8: a successful fetch returns a table whose columns are exactly
{Category, Title, Published Date, URL, Sentiment} and whose rows are one
per surviving entry (date-filtered, deduplicated, successfully
classified) in feed processing order — the spec-side recursion
`specSurvivorRows` — with no global sorting applied. -/
theorem claim_C8_table_shape (category : String) (daysFilter now : Int)
    (parse : String → Option Int) (feeds : List (List FeedEntry))
    (tbl : NewsTable)
    (h : fetch_news category daysFilter now parse feeds = .ok tbl) :
    tbl.cols = newsColumns ∧
    tbl.rows = specSurvivorRows category daysFilter now parse []
      feeds.flatten := by
  have hall := fetch_ok_parses h
  obtain ⟨seen', hfold⟩ :=
    foldl_fetch_spec category daysFilter now parse feeds.flatten [] [] hall
  obtain ⟨st, hst, rfl⟩ := fetch_ok_elim h
  rw [hst] at hfold
  obtain rfl : st = (seen',
      specSurvivorRows category daysFilter now parse [] feeds.flatten) := by
    simpa using hfold
  exact ⟨rfl, rfl⟩

/-- Concrete instance of C8: the fetched table of a two-entry feed has
the fixed columns and exactly the spec's surviving rows in feed order. -/
theorem claim_C8_witness :
    (NewsTable.mk newsColumns
      [⟨"Govt Analysis", "TN corruption row", 5, "u1",
        "Misgovernance (TN Govt Only)"⟩,
       ⟨"Govt Analysis", "TN record growth", 5, "u2",
        "Good Governance (TN Govt Only)"⟩]).cols = newsColumns
  ∧ (NewsTable.mk newsColumns
      [⟨"Govt Analysis", "TN corruption row", 5, "u1",
        "Misgovernance (TN Govt Only)"⟩,
       ⟨"Govt Analysis", "TN record growth", 5, "u2",
        "Good Governance (TN Govt Only)"⟩]).rows =
      specSurvivorRows "Govt Analysis" 30 432000 (fun _ => some 432000) []
        [[⟨"TN corruption row", "d1", "u1"⟩],
         [⟨"TN record growth", "d2", "u2"⟩]].flatten := by
  have h := claim_C8_table_shape "Govt Analysis" 30 432000
    (fun _ => some 432000)
    [[⟨"TN corruption row", "d1", "u1"⟩], [⟨"TN record growth", "d2", "u2"⟩]]
    (NewsTable.mk newsColumns
      [⟨"Govt Analysis", "TN corruption row", 5, "u1",
        "Misgovernance (TN Govt Only)"⟩,
       ⟨"Govt Analysis", "TN record growth", 5, "u2",
        "Good Governance (TN Govt Only)"⟩]) (by rfl)
  simpa using h

/-! ## Loading the correction file (source lines 72-78)

The filesystem and the two `pd.read_csv` runs are passed in as data:
`fileOnDisk` is `os.path.exists(feedback_file)`, `readPrimary` is the
result of reading with encoding `utf-8-sig` (`none` models the
`UnicodeDecodeError` the `except` clause catches), and `readFallback` the
result of the `ISO-8859-1` fallback read (`none` models a failure there,
which nothing catches, so it propagates as fatal). -/

/-- A loaded correction table: the column list plus one row per
correction record. -/
structure FeedbackTable where
  cols : List String
  rows : List (List String)
deriving DecidableEq

/-- `pd.DataFrame(columns=["Title", "Corrected Sentiment"])` at source
line 78: the empty table with the fixed columns. -/
def emptyFeedbackTable : FeedbackTable :=
  ⟨["Title", "Corrected Sentiment"], []⟩

/-- The module-level load of `corrected_labels.csv` (source lines 72-78):
missing file yields the empty table; a primary-decode failure triggers
exactly one fallback read; a fallback failure propagates. -/
def load_feedback (fileOnDisk : Bool)
    (readPrimary readFallback : Option FeedbackTable) :
    Except Unit FeedbackTable :=
  if fileOnDisk then
    match readPrimary with
    | some df => .ok df
    | none =>
      match readFallback with
      | some df => .ok df
      | none => .error ()
  else
    .ok emptyFeedbackTable

/-- C6: when the correction file is absent the load yields, without
error, the empty table with exactly the columns
{Title, Corrected Sentiment}; when the file exists and the primary
decode succeeds the fallback is never consulted; when the primary decode
fails exactly one fallback read decides the outcome, and a fallback
failure propagates as fatal. -/
theorem claim_C6_feedback_load :
    (∀ readPrimary readFallback,
      load_feedback false readPrimary readFallback = .ok emptyFeedbackTable)
  ∧ emptyFeedbackTable.cols = ["Title", "Corrected Sentiment"]
  ∧ emptyFeedbackTable.rows = []
  ∧ (∀ df readFallback,
      load_feedback true (some df) readFallback = .ok df)
  ∧ (∀ df, load_feedback true none (some df) = .ok df)
  ∧ load_feedback true none none = .error () := by
  refine ⟨fun readPrimary readFallback => rfl, rfl, rfl,
    fun df readFallback => rfl, fun df => rfl, rfl⟩

/-! ## CSV persistence of the correction table (C7)

`feedback_df.to_csv(feedback_file, index=False)` (source line 169) and
`pd.read_csv(feedback_file)` (source line 74) live in the pandas library,
not in this repository.  They are modelled from the spec ("written in
full (overwrite) on explicit save action"; reloading "yields the same
rows (order and content)") as an RFC-4180-style codec: minimal quoting
(a field is quoted iff it contains a comma, a double quote, a newline or
a carriage return, with embedded double quotes doubled), fields joined
by commas, records terminated by a newline, and a leading header
record. -/

/-- The double-quote character. -/
def dquote : Char := Char.ofNat 34

/-- Modelled from the spec: a field must be quoted on write iff it
contains a CSV metacharacter. -/
def needsQuote (s : List Char) : Bool :=
  s.any (fun c => c = ',' || c = dquote || c = '\n' || c = '\r')

/-- Modelled from the spec: double every double quote of a field body. -/
def escapeQuotes : List Char → List Char
  | [] => []
  | c :: t =>
    if c = dquote then dquote :: dquote :: escapeQuotes t
    else c :: escapeQuotes t

/-- Modelled from the spec: serialize one field, quoting minimally. -/
def printCell (s : List Char) : List Char :=
  if needsQuote s then dquote :: (escapeQuotes s ++ [dquote]) else s

/-- Modelled from the spec: serialize one record, comma-separated. -/
def printRow : List (List Char) → List Char
  | [] => []
  | [c] => printCell c
  | c :: r => printCell c ++ ',' :: printRow r

/-- Modelled from the spec: serialize the records, each terminated by a
newline. -/
def printCsv : List (List (List Char)) → List Char
  | [] => []
  | r :: rs => printRow r ++ '\n' :: printCsv rs

/-- Modelled from the spec: read a quoted field body up to its closing
quote; a doubled quote is an escaped quote.  Returns the field and the
unconsumed input. -/
def parseQuoted : List Char → List Char × List Char
  | [] => ([], [])
  | c :: cs =>
    if c = dquote then
      if cs.head? = some dquote then
        let p := parseQuoted cs.tail
        (dquote :: p.1, p.2)
      else ([], cs)
    else
      let p := parseQuoted cs
      (c :: p.1, p.2)
termination_by cs => cs.length
decreasing_by
  all_goals simp [List.length_tail]
  omega

/-- Modelled from the spec: read an unquoted field, up to the next comma
or newline (not consumed). -/
def parseUnquoted : List Char → List Char × List Char
  | [] => ([], [])
  | c :: cs =>
    if c = ',' || c = '\n' then ([], c :: cs)
    else
      let p := parseUnquoted cs
      (c :: p.1, p.2)

/-- Modelled from the spec: read one field, dispatching on a leading
quote. -/
def parseCellAt : List Char → List Char × List Char
  | [] => ([], [])
  | c :: cs => if c = dquote then parseQuoted cs else parseUnquoted (c :: cs)

/-- Modelled from the spec: read one record: fields separated by commas,
terminated by a newline (consumed) or the end of input.  `fuel` bounds
the number of fields. -/
def parseRecordF : Nat → List Char → List (List Char) × List Char
  | 0, cs => ([(parseCellAt cs).1], (parseCellAt cs).2)
  | fuel + 1, cs =>
    match (parseCellAt cs).2 with
    | [] => ([(parseCellAt cs).1], [])
    | a :: t =>
      if a = ',' then
        let q := parseRecordF fuel t
        ((parseCellAt cs).1 :: q.1, q.2)
      else if a = '\n' then ([(parseCellAt cs).1], t)
      else ([(parseCellAt cs).1], a :: t)

/-- Modelled from the spec: read all records.  `fuel` bounds the number
of records. -/
def parseCsvF : Nat → List Char → List (List (List Char))
  | 0, _ => []
  | fuel + 1, cs =>
    if cs.isEmpty then []
    else
      let p := parseRecordF cs.length cs
      p.1 :: parseCsvF fuel p.2

/-- Modelled from the spec: parse a CSV character stream into records. -/
def parseCsv (cs : List Char) : List (List (List Char)) :=
  parseCsvF cs.length cs


/-- Reading an unquoted serialized field stops exactly at the following
separator. -/
theorem parseUnquoted_app : ∀ (s rest : List Char),
    (∀ c ∈ s, ¬(c = ',') ∧ ¬(c = '\n')) →
    (rest.head? = some ',' ∨ rest.head? = some '\n') →
    parseUnquoted (s ++ rest) = (s, rest) := by
  intro s
  induction s with
  | nil =>
    intro rest hs hrest
    cases rest with
    | nil => simp at hrest
    | cons a t =>
      simp only [List.head?_cons, Option.some.injEq] at hrest
      rw [List.nil_append, parseUnquoted]
      rcases hrest with rfl | rfl <;> simp
  | cons c s' ih =>
    intro rest hs hrest
    have hc := hs c (List.mem_cons_self c s')
    have hs' : ∀ x ∈ s', ¬(x = ',') ∧ ¬(x = '\n') :=
      fun x hx => hs x (List.mem_cons_of_mem c hx)
    rw [List.cons_append, parseUnquoted, if_neg (by simp [hc.1, hc.2]),
      ih rest hs' hrest]

/-- Reading a quote-escaped field body consumes exactly up to the
closing quote. -/
theorem parseQuoted_escape : ∀ (s rest : List Char),
    rest.head? ≠ some dquote →
    parseQuoted (escapeQuotes s ++ dquote :: rest) = (s, rest) := by
  intro s
  induction s with
  | nil =>
    intro rest hrest
    rw [escapeQuotes, List.nil_append, parseQuoted]
    simp [hrest]
  | cons a s' ih =>
    intro rest hrest
    by_cases ha : a = dquote
    · subst ha
      rw [escapeQuotes, if_pos rfl, List.cons_append, List.cons_append,
        parseQuoted]
      simp [ih rest hrest]
    · rw [escapeQuotes, if_neg ha, List.cons_append, parseQuoted]
      simp [ha, ih rest hrest]

/-- Reading back one serialized field recovers it and leaves the
following separator unconsumed. -/
theorem parseCellAt_print (c rest : List Char)
    (hrest : rest.head? = some ',' ∨ rest.head? = some '\n') :
    parseCellAt (printCell c ++ rest) = (c, rest) := by
  have hrest' : rest.head? ≠ some dquote := by
    rcases hrest with h | h <;> rw [h] <;> decide
  cases hq : needsQuote c with
  | true =>
    rw [printCell, if_pos hq, List.cons_append, List.append_assoc,
      List.singleton_append, parseCellAt, if_pos rfl]
    exact parseQuoted_escape c rest hrest'
  | false =>
    rw [needsQuote] at hq
    have hchars : ∀ x ∈ c, ¬(x = ',') ∧ ¬(x = dquote) ∧ ¬(x = '\n') := by
      intro x hx
      have hx' := List.any_eq_false.mp hq x hx
      simp only [Bool.or_eq_true, decide_eq_true_eq, not_or] at hx'
      exact ⟨hx'.1.1.1, hx'.1.1.2, hx'.1.2⟩
    rw [printCell, if_neg (by simp [needsQuote, hq])]
    cases c with
    | nil =>
      cases rest with
      | nil => simp at hrest
      | cons a t =>
        simp only [List.head?_cons, Option.some.injEq] at hrest
        rw [List.nil_append, parseCellAt]
        have ha : ¬(a = dquote) := by
          rcases hrest with rfl | rfl <;> decide
        rw [if_neg ha, parseUnquoted]
        rcases hrest with rfl | rfl <;> simp
    | cons a c' =>
      have ha := (hchars a (List.mem_cons_self a c')).2.1
      rw [List.cons_append, parseCellAt, if_neg ha, ← List.cons_append]
      exact parseUnquoted_app (a :: c') rest
        (fun x hx => ⟨(hchars x hx).1, (hchars x hx).2.2⟩) hrest

/-- Reading back one serialized record recovers its fields and consumes
its terminating newline. -/
theorem parseRecordF_print : ∀ (r : List (List Char)) (fuel : Nat)
    (rest : List Char), r ≠ [] → r.length ≤ fuel →
    parseRecordF fuel (printRow r ++ '\n' :: rest) = (r, rest) := by
  intro r
  induction r with
  | nil =>
    intro fuel rest hne _
    exact absurd rfl hne
  | cons c r' ih =>
    intro fuel rest _ hlen
    cases fuel with
    | zero => simp at hlen
    | succ f =>
      cases r' with
      | nil =>
        have hcell := parseCellAt_print c ('\n' :: rest) (Or.inr rfl)
        rw [printRow, parseRecordF, hcell]
        simp
      | cons c2 r'' =>
        have hlen' : (c2 :: r'').length ≤ f := by
          simp only [List.length_cons] at hlen ⊢
          omega
        have hcell := parseCellAt_print c
          (',' :: (printRow (c2 :: r'') ++ '\n' :: rest)) (Or.inl rfl)
        rw [printRow, List.append_assoc, List.cons_append, parseRecordF, hcell]
        dsimp only
        rw [ih f rest (List.cons_ne_nil c2 r'') hlen']
        · simp
        · exact List.cons_ne_nil c2 r''

/-- A record never serializes to fewer characters than its field count
minus one (the separating commas alone account for that). -/
theorem printRow_length : ∀ r : List (List Char),
    r.length ≤ (printRow r).length + 1 := by
  intro r
  induction r with
  | nil => simp [printRow]
  | cons c r' ih =>
    cases r' with
    | nil => simp [printRow]
    | cons c2 r'' =>
      rw [printRow]
      · simp only [List.length_cons, List.length_append] at ih ⊢
        omega
      · exact List.cons_ne_nil c2 r''

/-- The serialized stream has at least one character per record (its
terminating newline). -/
theorem printCsv_length : ∀ rows : List (List (List Char)),
    rows.length ≤ (printCsv rows).length := by
  intro rows
  induction rows with
  | nil => simp [printCsv]
  | cons r rs ih =>
    rw [printCsv]
    simp only [List.length_cons, List.length_append] at ih ⊢
    omega

/-- Reading back a serialized stream of nonempty records recovers them,
given fuel at least the record count. -/
theorem parseCsvF_print : ∀ (rows : List (List (List Char))) (fuel : Nat),
    (∀ r ∈ rows, r ≠ []) → rows.length ≤ fuel →
    parseCsvF fuel (printCsv rows) = rows := by
  intro rows
  induction rows with
  | nil =>
    intro fuel _ _
    cases fuel <;> simp [printCsv, parseCsvF]
  | cons r rs ih =>
    intro fuel hne hlen
    cases fuel with
    | zero => simp at hlen
    | succ f =>
      rw [printCsv, parseCsvF]
      have hemp : (printRow r ++ '\n' :: printCsv rs).isEmpty = false := by
        cases hpr : printRow r <;> simp [hpr]
      rw [if_neg (by simp [hemp])]
      have hrlen : r.length ≤ (printRow r ++ '\n' :: printCsv rs).length := by
        have := printRow_length r
        simp only [List.length_append, List.length_cons]
        omega
      rw [parseRecordF_print r _ (printCsv rs)
        (hne r (List.mem_cons_self r rs)) hrlen]
      dsimp only
      rw [ih f (fun x hx => hne x (List.mem_cons_of_mem r hx))
        (by simpa using Nat.succ_le_succ_iff.mp hlen)]

/-- Full codec round trip: parsing a printed stream of nonempty records
yields the records back, in order and content. -/
theorem parseCsv_printCsv (rows : List (List (List Char)))
    (hne : ∀ r ∈ rows, r ≠ []) : parseCsv (printCsv rows) = rows :=
  parseCsvF_print rows (printCsv rows).length hne (printCsv_length rows)

/-- The header record of `corrected_labels.csv`: the two fixed columns. -/
def feedbackHeader : List (List Char) :=
  ["Title".data, "Corrected Sentiment".data]

/-- Modelled from the spec: `feedback_df.to_csv(feedback_file,
index=False)` (source line 169) — write the header record followed by
one record per correction row, overwriting the file. -/
def save_feedback_rows (rows : List (List Char × List Char)) : List Char :=
  printCsv (feedbackHeader :: rows.map (fun r => [r.1, r.2]))

/-- Modelled from the spec: interpret each parsed record as one
two-column correction row; any record of a different width fails. -/
def readRows : List (List (List Char)) → Option (List (List Char × List Char))
  | [] => some []
  | r :: rs =>
    match r with
    | [a, b] => (readRows rs).map (fun t => (a, b) :: t)
    | _ => none

/-- Modelled from the spec: `pd.read_csv(feedback_file)` (source line
74) — parse the stream, take the first record as the header, and each
further record as one two-column correction row. -/
def read_feedback_rows (cs : List Char) :
    Option (List (List Char × List Char)) :=
  match parseCsv cs with
  | [] => none
  | header :: rs =>
    if header = feedbackHeader then readRows rs else none

/-- Two-column records read back as exactly the pairs they came from. -/
theorem readRows_map : ∀ rows : List (List Char × List Char),
    readRows (rows.map (fun r => [r.1, r.2])) = some rows := by
  intro rows
  induction rows with
  | nil => rfl
  | cons p t ih =>
    rw [List.map_cons, readRows]
    simp [ih]

/-- C7: saving a correction table to the correction file and reloading
the file yields exactly the rows present at save time, in the same order
and with the same content — for every table, including titles containing
commas, quotes or newlines. -/
theorem claim_C7_save_reload_roundtrip (rows : List (List Char × List Char)) :
    read_feedback_rows (save_feedback_rows rows) = some rows := by
  rw [save_feedback_rows, read_feedback_rows]
  have hne : ∀ r ∈ feedbackHeader :: rows.map (fun r => [r.1, r.2]), r ≠ [] := by
    intro r hr
    rcases List.mem_cons.mp hr with rfl | h
    · simp [feedbackHeader]
    · obtain ⟨p, -, rfl⟩ := List.mem_map.mp h
      simp
  rw [parseCsv_printCsv _ hne]
  dsimp only
  rw [if_pos rfl]
  exact readRows_map rows
